import Mathlib

/-!
Verification of the AARS revision-chain and indexing core
(`src/aars/core.py` together with the error taxonomy of
`core/exceptions.py`).

The Python code is shallowly embedded: the external Aleph storage
collaborator is a deterministic state (`AarsState`) holding the list of
immutable posts (newest first, as the network answers reverse
chronologically), a counter for fresh item hashes, the process-wide
class registry of indices (`Record.__indices`, a single dict shared by
every record type through name mangling), and the log of `forget`
instructions sent to the collaborator.  Python objects that are mutated
in place become explicit state passing; exceptions become `Except`.
-/

namespace Aars

/-- A content payload: the user-defined fields of a record, as the
dictionary that is stored on Aleph (field name, field value). -/
abbrev Content := List (String × String)

/-- Association-list lookup, the embedding of a Python dict read
(`d[k]` / `d.get(k)` / `getattr`). -/
def lookupAssoc {β : Type} : List (String × β) → String → Option β
  | [], _ => none
  | (k, v) :: rest, key => if k = key then some v else lookupAssoc rest key

/-- Association-list write, the embedding of a Python dict assignment
`d[k] = v`: an existing key is overwritten in place, a new key is
appended (Python dicts preserve insertion order). -/
def assocSet {β : Type} : List (String × β) → String → β → List (String × β)
  | [], key, v => [(key, v)]
  | (k, w) :: rest, key, v =>
    if k = key then (key, v) :: rest else (k, w) :: assocSet rest key v

/-- The embedding of `dict.update(other)`: every entry of `other` is
written into the dictionary in order. -/
def dictUpdate (d : List (String × String)) (other : List (String × String)) :
    List (String × String) :=
  other.foldl (fun acc kv => assocSet acc kv.fst kv.snd) d

/-- `list.index(x)` as a total function: the index of the first
occurrence, or `none` where Python raises `ValueError`. -/
def indexOfStr : List String → String → Option Nat
  | [], _ => none
  | y :: ys, x => if y = x then some 0 else (indexOfStr ys x).map (fun n => n + 1)

/-- Helper for `dedup`: drops elements already seen. -/
def dedupAux (seen : List String) : List String → List String
  | [] => []
  | x :: xs => if x ∈ seen then dedupAux seen xs else x :: dedupAux (x :: seen) xs

/-- The embedding of `list(set(l))`.  CPython iterates a set in an
unspecified order; we fix the deterministic first-occurrence order.  No
theorem below relies on the order of the result, only on the fact that
duplicates are collapsed. -/
def dedup (l : List String) : List String := dedupAux [] l

/-- The error taxonomy.  Each constructor corresponds to one raise site
of the source (`ValueError`, `IndexError`, `KeyError`,
`AttributeError`, `AlreadyForgottenError`) or to an exception class of
`core/exceptions.py`. -/
inductive AarsError : Type
  /-- `ValueError` at `fetch_revision`: neither `rev_no` nor `rev_hash`
  was provided. -/
  | invalidArgument : AarsError
  /-- `IndexError` at `fetch_revision`: revision number out of range or
  revision hash absent from the chain. -/
  | revisionNotFound : AarsError
  /-- `AlreadyForgottenError` at `forget`. -/
  | alreadyForgotten : AarsError
  /-- `ValueError` at `query`: no index of the given name registered. -/
  | unknownIndex : AarsError
  /-- `KeyError` at `Index.fetch`: a key absent from the hashmap. -/
  | indexKeyNotFound : AarsError
  /-- `AttributeError` at `Index.add`: the record has no field named
  `index_on`. -/
  | attributeError : AarsError
  /-- `ValueError` at `from_post`: the post's own hash is missing from
  the resolved revision chain (`.index` fails). -/
  | postHashNotInChain : AarsError
  /-- `IndexError` at `fetch_revision` line 73: `[0]` applied to an
  empty fetch result. -/
  | emptyFetchResult : AarsError
  /-- `PostTypeIsNoClassError` of `core/exceptions.py` (the spec's
  `UnresolvableType`); it carries the raw post's field names. -/
  | unresolvableType : List String → AarsError
deriving Repr, DecidableEq

/-- One immutable post on the network, as returned inside
`get_posts(...)['posts']`. -/
structure Post : Type where
  item_hash : String
  ref : Option String
  postType : String
  channel : String
  address : String
  postContent : Content
deriving Repr, DecidableEq

/-- The in-memory `Record` object.  `typeName` stands for
`type(self).__name__`; `content` is the payload dictionary (the
`content` property already excludes the four bookkeeping fields). -/
structure Record : Type where
  typeName : String
  forgotten : Bool := false
  item_hash : Option String := none
  current_revision : Option Int := none
  revision_hashes : List String := []
  content : Content := []
deriving Repr, DecidableEq

/-- An `Index` object: `hashmap` maps a field value to a canonical item
hash (it is declared `Dict[str, str]` in the source). -/
structure Index : Type where
  datatypeName : String
  index_on : String
  hashmap : List (String × String) := []
deriving Repr, DecidableEq

/-- `Index.__repr__`: the name under which `add_index` files an index
in the registry, `f"{self.datatype.__name__}.{self.index_on}"`. -/
def Index.reprName (i : Index) : String :=
  i.datatypeName ++ "." ++ i.index_on

/-- The world state: the collaborator's post store (newest first), a
counter producing fresh item hashes, the shared class-level index
registry `Record.__indices` (one dict for all record types, keyed by
`repr(index)`), and the log of `forget` calls issued to the
collaborator. -/
structure AarsState : Type where
  posts : List Post := []
  counter : Nat := 0
  indices : List (String × Index) := []
  forgetCalls : List (List (Option String)) := []
deriving Repr, DecidableEq

/-- `FALLBACK_ACCOUNT = get_fallback_account()`. -/
def FALLBACK_ACCOUNT : String := "fallback-account"

/-- `AARS_TEST_CHANNEL = "AARS_TEST"`. -/
def AARS_TEST_CHANNEL : String := "AARS_TEST"

/-- Fresh item hashes produced by the collaborator for successive
`create_post` calls. -/
def freshHash (n : Nat) : String := "h" ++ toString n

/-- `client.create_post(account, content, post_type, channel, ref)`:
appends a fresh immutable post (the network lists posts newest first,
so it is prepended) and returns its `item_hash`. -/
def client_create_post (st : AarsState) (account : String) (content : Content)
    (postType : String) (channel : String) (ref : Option String) :
    AarsState × String :=
  let h := freshHash st.counter
  let p : Post := { item_hash := h, ref := ref, postType := postType,
                    channel := channel, address := account, postContent := content }
  ({ st with posts := p :: st.posts, counter := st.counter + 1 }, h)

/-- The filter predicate of `client.get_posts`: a `none` filter matches
everything, a `some` filter requires membership. -/
def matchesFilter (hashes refs channels types addresses : Option (List String))
    (p : Post) : Bool :=
  (match hashes with
   | none => true
   | some hs => hs.contains p.item_hash) &&
  (match refs with
   | none => true
   | some rs => match p.ref with
     | none => false
     | some r => rs.contains r) &&
  (match channels with
   | none => true
   | some cs => cs.contains p.channel) &&
  (match types with
   | none => true
   | some ts => ts.contains p.postType) &&
  (match addresses with
   | none => true
   | some as_ => as_.contains p.address)

/-- `client.get_posts(hashes, refs, channels, types, addresses)`:
filterable read over the post store, newest first. -/
def get_posts (st : AarsState) (hashes refs channels types addresses : Option (List String)) :
    List Post :=
  st.posts.filter (matchesFilter hashes refs channels types addresses)

/-- `fetch_revisions(datatype, ref, channel, owner)`: all posts whose
`ref` equals the canonical hash, reversed so the oldest comes first. -/
def fetch_revisions (st : AarsState) (typeName : String) (ref : String)
    (channel : Option String) (owner : Option String) : List String :=
  let owners := match owner with
    | none => none
    | some o => some [o]
  let channels := match channel with
    | none => none
    | some c => some [c]
  let channels := match owners, channels with
    | none, none => some [AARS_TEST_CHANNEL]
    | _, _ => channels
  let resp := get_posts st none (some [ref]) channels (some [typeName]) owners
  (resp.map Post.item_hash).reverse

/-- `Record.update_revision_hashes`: recomputes the chain as
`[self.item_hash] + fetch_revisions(type(self), ref=self.item_hash)`.
The source would build `[None] + ...` for a never-persisted record;
that path is unreachable in every use (the hash is always assigned
first), so it is modelled as the identity. -/
def update_revision_hashes (st : AarsState) (r : Record) : Record :=
  match r.item_hash with
  | none => r
  | some ih =>
    { r with revision_hashes := ih :: fetch_revisions st r.typeName ih none none }

/-- `Record.from_post(post)`: reconstruct a typed record from a raw
post.  The intermediate assignments of the two branches are kept even
though lines 104-106 of the source overwrite them. -/
def from_post (st : AarsState) (typeName : String) (p : Post) :
    Except AarsError Record :=
  let obj : Record := { typeName := typeName, content := p.postContent }
  let obj := match p.ref with
    | none =>
      { obj with item_hash := some p.item_hash,
                 revision_hashes := obj.revision_hashes ++ [p.item_hash] }
    | some r =>
      { obj with item_hash := some r,
                 revision_hashes := fetch_revisions st typeName r none none }
  let obj := { obj with item_hash := match p.ref with
    | none => some p.item_hash
    | some r => some r }
  let obj := update_revision_hashes st obj
  match indexOfStr obj.revision_hashes p.item_hash with
  | none => Except.error AarsError.postHashNotInChain
  | some i => Except.ok { obj with current_revision := some (Int.ofNat i) }

/-- The reconstruction fan-out of `fetch_records`:
`asyncio.gather(*[datatype.from_post(post) for post in posts])`, with
the first failure propagated. -/
def fromPostAll (st : AarsState) (typeName : String) :
    List Post → Except AarsError (List Record)
  | [] => Except.ok []
  | p :: ps =>
    match from_post st typeName p with
    | Except.error e => Except.error e
    | Except.ok r =>
      match fromPostAll st typeName ps with
      | Except.error e => Except.error e
      | Except.ok rs => Except.ok (r :: rs)

/-- `fetch_records(datatype, item_hashes, channel, owner)`: filterable
read returning reconstructed records in the network response's order.
When none of the filters is given the fixed test channel is used. -/
def fetch_records (st : AarsState) (typeName : String)
    (item_hashes : Option (List String)) (channel : Option String)
    (owner : Option String) : Except AarsError (List Record) :=
  let channels := match channel with
    | none => none
    | some c => some [c]
  let owners := match owner with
    | none => none
    | some o => some [o]
  let channels := match item_hashes, channels, owners with
    | none, none, none => some [AARS_TEST_CHANNEL]
    | _, _, _ => channels
  let resp := get_posts st item_hashes none channels (some [typeName]) owners
  fromPostAll st typeName resp

/-- The tail of `Record.fetch_revision` (line 73 of the source): the
content is always re-fetched from the network for `self.item_hash` —
the canonical hash — and `self.__dict__.update(...)` merges the fetched
record's content fields over the in-memory ones.  `[0]` on an empty
response is the `IndexError` case. -/
def materialize (st : AarsState) (r : Record) : Except AarsError Record :=
  let hashes := match r.item_hash with
    | none => []
    | some h => [h]
  match fetch_records st r.typeName (some hashes) none none with
  | Except.error e => Except.error e
  | Except.ok [] => Except.error AarsError.emptyFetchResult
  | Except.ok (rec :: _) => Except.ok { r with content := dictUpdate r.content rec.content }

/-- `Record.fetch_revision(rev_no, rev_hash)`.  Negative numbers are
normalised Python-slice style; a resolved number equal to
`current_revision` short-circuits without any fetch; the source's bound
check is the strict `rev_no > len(self.revision_hashes)`. -/
def Record.fetch_revision (st : AarsState) (r : Record)
    (rev_no : Option Int) (rev_hash : Option String) : Except AarsError Record :=
  match rev_no with
  | some k0 =>
    let k := if k0 < 0 then (r.revision_hashes.length : Int) + k0 else k0
    if r.current_revision = some k then
      Except.ok r
    else if k > (r.revision_hashes.length : Int) then
      Except.error AarsError.revisionNotFound
    else
      materialize st { r with current_revision := some k }
  | none =>
    match rev_hash with
    | some h =>
      match indexOfStr r.revision_hashes h with
      | none => Except.error AarsError.revisionNotFound
      | some i => materialize st { r with current_revision := some (Int.ofNat i) }
    | none => Except.error AarsError.invalidArgument

/-- `post_or_amend_object(obj, account, channel)`: posts the content
with `ref = obj.item_hash`, assigns the returned hash as `item_hash` on
the first post, appends it to `revision_hashes` and points
`current_revision` at the tail. -/
def post_or_amend_object (st : AarsState) (obj : Record)
    (account : Option String) (channel : Option String) : AarsState × Record :=
  let account := match account with
    | none => FALLBACK_ACCOUNT
    | some a => a
  let channel := match channel with
    | none => AARS_TEST_CHANNEL
    | some c => c
  let name := obj.typeName
  let res := client_create_post st account obj.content name channel obj.item_hash
  let st := res.fst
  let h := res.snd
  let obj := match obj.item_hash with
    | none => { obj with item_hash := some h }
    | some _ => obj
  let obj := { obj with revision_hashes := obj.revision_hashes ++ [h] }
  let obj := { obj with current_revision := some ((obj.revision_hashes.length : Int) - 1) }
  (st, obj)

/-- `Index.add(obj)`: `self.hashmap[getattr(obj, self.index_on)] =
obj.item_hash`.  A missing field is the `AttributeError` case.  An
unpersisted record would store `None` where the source declares
`Dict[str, str]`; that case occurs in no use below and is modelled by
the empty hash, which (like `None`) matches no post. -/
def Index.add (idx : Index) (obj : Record) : Except AarsError Index :=
  match lookupAssoc obj.content idx.index_on with
  | none => Except.error AarsError.attributeError
  | some v =>
    Except.ok { idx with hashmap := assocSet idx.hashmap v (obj.item_hash.getD "") }

/-- `[index.add(self) for index in self.__indices.values()]`: every
index of the shared registry receives the record, in registry order. -/
def addToAll (l : List (String × Index)) (r : Record) :
    Except AarsError (List (String × Index)) :=
  match l with
  | [] => Except.ok []
  | (k, idx) :: rest =>
    match idx.add r with
    | Except.error e => Except.error e
    | Except.ok idx2 =>
      match addToAll rest r with
      | Except.error e => Except.error e
      | Except.ok rest2 => Except.ok ((k, idx2) :: rest2)

/-- `Record.upsert()`: post or amend, then — only when the freshly
assigned `current_revision` is `0` — add the record to every index of
the shared registry. -/
def Record.upsert (st : AarsState) (r : Record) :
    Except AarsError (AarsState × Record) :=
  let res := post_or_amend_object st r none none
  let st := res.fst
  let r := res.snd
  if r.current_revision = some 0 then
    match addToAll st.indices r with
    | Except.error e => Except.error e
    | Except.ok idxs => Except.ok ({ st with indices := idxs }, r)
  else
    Except.ok (st, r)

/-- `Record.create(**kwargs)`: construct a fresh record (all
bookkeeping fields at their defaults) and upsert it. -/
def Record.create (st : AarsState) (typeName : String) (c : Content) :
    Except AarsError (AarsState × Record) :=
  Record.upsert st { typeName := typeName, content := c }

/-- `forget_object(obj)`: instructs the collaborator to forget
`[obj.item_hash] + obj.revision_hashes`; the issued instruction is
logged. -/
def forget_object (st : AarsState) (obj : Record) : AarsState :=
  let hashes : List (Option String) := obj.item_hash :: obj.revision_hashes.map some
  { st with forgetCalls := st.forgetCalls ++ [hashes] }

/-- `Record.forget()`: a first call issues the collaborator instruction
and sets the flag; a repeated call raises `AlreadyForgottenError`. -/
def Record.forget (st : AarsState) (r : Record) :
    Except AarsError (AarsState × Record) :=
  if r.forgotten = false then
    Except.ok (forget_object st r, { r with forgotten := true })
  else
    Except.error AarsError.alreadyForgotten

/-- `Record.add_index(index)` called from `Index.__init__`: files the
index in the shared registry under `repr(index)`.  The `cls` argument
plays no role in the storage — name mangling makes `cls.__indices` the
single dict owned by `Record`. -/
def add_index (st : AarsState) (idx : Index) : AarsState :=
  { st with indices := assocSet st.indices idx.reprName idx }

/-- The comprehension `[self.hashmap[key] for key in keys]`: keys are
resolved left to right, and the first missing key raises `KeyError`. -/
def resolveKeys (m : List (String × String)) : List String → Except AarsError (List String)
  | [] => Except.ok []
  | k :: ks =>
    match lookupAssoc m k with
    | none => Except.error AarsError.indexKeyNotFound
    | some h =>
      match resolveKeys m ks with
      | Except.error e => Except.error e
      | Except.ok hs => Except.ok (h :: hs)

/-- `Index.fetch(keys)`: resolve each key through the hashmap (a
missing key is the `KeyError` case), collapse the hashes into a set,
and fetch those records.  `keys = None` returns all indexed records. -/
def Index.fetch (st : AarsState) (idx : Index) (keys : Option (List String)) :
    Except AarsError (List Record) :=
  match keys with
  | none =>
    let hashes := dedup (idx.hashmap.map Prod.snd)
    fetch_records st idx.datatypeName (some hashes) none none
  | some ks =>
    match resolveKeys idx.hashmap ks with
    | Except.error e => Except.error e
    | Except.ok hs => fetch_records st idx.datatypeName (some (dedup hs)) none none

/-- `Record.query(keys, index)`: looks the given name up in the shared
registry — verbatim, with no qualification — and delegates to the found
index.  The `cls` the classmethod is invoked on appears only in the
error message of the source and is therefore unused here. -/
def query (st : AarsState) (_cls : String) (keys : List String)
    (indexName : String) : Except AarsError (List Record) :=
  match lookupAssoc st.indices indexName with
  | none => Except.error AarsError.unknownIndex
  | some idx => Index.fetch st idx (some keys)

/-- The constructor of `PostTypeIsNoClassError` (`core/exceptions.py`):
the resulting error carries the raw post's field names
(`[key for key in self.content.keys()]`).  `fetch_records` never raises
it — the class is declared but unused by the core. -/
def postTypeIsNoClassError (p : Post) : AarsError :=
  AarsError.unresolvableType (p.postContent.map Prod.fst)

/-- `obj.field = value` on a pydantic record, ahead of an upsert. -/
def Record.setField (r : Record) (k v : String) : Record :=
  { r with content := assocSet r.content k v }

/-- N further `upsert` calls, each preceded by an arbitrary mutation of
the payload fields (one `Content` per call). -/
def upsertMany (st : AarsState) (r : Record) :
    List Content → Except AarsError (AarsState × Record)
  | [] => Except.ok (st, r)
  | c :: cs =>
    match Record.upsert st { r with content := c } with
    | Except.error e => Except.error e
    | Except.ok p => upsertMany p.fst p.snd cs

/-- Projection of a succeeding operation, used to name the states of
the concrete scenarios below. -/
def getOk (e : Except AarsError (AarsState × Record)) : AarsState × Record :=
  match e with
  | Except.ok p => p
  | Except.error _ => ({}, { typeName := "" })

/-! Concrete scenario: create `A{value: "1"}`, then upsert with the
field changed to `"2"`.  The network then holds the canonical post `h0`
(content `value = "1"`) and the amendment `h1` (content `value = "2"`),
and the in-memory record has chain `[h0, h1]` at revision 1. -/

/-- The canonical post of the scenario. -/
def postH0 : Post :=
  { item_hash := "h0", ref := none, postType := "A", channel := "AARS_TEST",
    address := "fallback-account", postContent := [("value", "1")] }

/-- The amendment post of the scenario. -/
def postH1 : Post :=
  { item_hash := "h1", ref := some "h0", postType := "A", channel := "AARS_TEST",
    address := "fallback-account", postContent := [("value", "2")] }

/-- The network state after the create and the upsert. -/
def stAB : AarsState := { posts := [postH1, postH0], counter := 2 }

/-- The in-memory record after the create and the upsert. -/
def recAB : Record :=
  { typeName := "A", item_hash := some "h0", current_revision := some 1,
    revision_hashes := ["h0", "h1"], content := [("value", "2")] }

/-- Two single-key indices on the same field name, registered for two
different record types, both filed in the shared registry. -/
def stTwoIndices : AarsState :=
  add_index (add_index {} { datatypeName := "A", index_on := "value" })
    { datatypeName := "B", index_on := "value" }

/-- Registry with `Index(A, "value")` alone, then `A{value:"x"}` and
`A{value:"y"}` created; the final world state. -/
def stQ : AarsState :=
  (getOk (Except.bind
    (Record.create (add_index {} { datatypeName := "A", index_on := "value" })
      "A" [("value", "x")])
    (fun p => Record.create p.fst "A" [("value", "y")]))).fst

/-- The first created record of the query scenario. -/
def recQX : Record :=
  { typeName := "A", item_hash := some "h0", current_revision := some 0,
    revision_hashes := ["h0"], content := [("value", "x")] }

/-- The second created record of the query scenario. -/
def recQY : Record :=
  { typeName := "A", item_hash := some "h1", current_revision := some 0,
    revision_hashes := ["h1"], content := [("value", "y")] }

/-- Does a fetch outcome consist of the `UnresolvableType` error? -/
def isUnresolvableType : Except AarsError (List Record) → Bool
  | Except.error (AarsError.unresolvableType _) => true
  | _ => false

/-- World and record after creating `A{value:"x"}` against the
two-index registry. -/
def wIdx : AarsState × Record :=
  getOk (Record.create stTwoIndices "A" [("value", "x")])

/-- World and record after creating `W{v:"0"}` in an empty world. -/
def wChainA : AarsState × Record :=
  getOk (Record.create {} "W" [("v", "0")])

/-- World and record after two further upserts of the `W` record, with
the payload mutated before each call. -/
def wChainB : AarsState × Record :=
  getOk (upsertMany wChainA.fst wChainA.snd [[("v", "1")], [("v", "2")]])

/-- An index whose two keys map to the same canonical hash. -/
def idxDup : Index :=
  { datatypeName := "A", index_on := "value", hashmap := [("x", "h0"), ("y", "h0")] }

/-!  Theorems.  -/

/-- C1: the code contradicts the claim (and its own docstring, which
promises that previous revisions can be restored).  `fetch_revision`
always re-fetches by `item_hash`, the canonical hash, so for every
revision number it materializes the content of the revision-0 post.
Here: after creating `A{value:"1"}` and upserting `value:"2"`,
`fetch_revision(rev_no=0)` yields the creation content (the claim's
example, which holds), but `fetch_revision(rev_no=1)` ALSO yields
`value = "1"`, although the post at `revision_hashes[1]` (hash `h1`,
index 1 of the chain) carries `value = "2"`.  `current_revision` is set
to the requested number in both calls. -/
theorem fetch_revision_always_materializes_canonical_content :
    Except.bind (Record.create {} "A" [("value", "1")])
      (fun p => Record.upsert p.fst (Record.setField p.snd "value" "2")) =
      Except.ok (stAB, recAB) ∧
    Record.fetch_revision stAB recAB (some 0) none =
      Except.ok { recAB with current_revision := some 0, content := [("value", "1")] } ∧
    Record.fetch_revision stAB
      { recAB with current_revision := some 0, content := [("value", "1")] } (some 1) none =
      Except.ok { recAB with current_revision := some 1, content := [("value", "1")] } ∧
    indexOfStr recAB.revision_hashes "h1" = some 1 ∧
    postH1.postContent = [("value", "2")] ∧
    stAB.posts = [postH1, postH0] :=
  ⟨rfl, rfl, rfl, rfl, rfl, rfl⟩

/-- C2: the code contradicts the claim at the boundary.  The source
checks `rev_no > len(self.revision_hashes)` instead of `>=`, so on a
chain of length 2 the call `fetch_revision(rev_no=2)` does not raise
`RevisionNotFound`: it succeeds and leaves `current_revision = 2`, an
out-of-range index.  `rev_no = 3` and an unknown revision hash do fail
with `RevisionNotFound` as claimed. -/
theorem fetch_revision_accepts_rev_no_equal_chain_length :
    List.length recAB.revision_hashes = 2 ∧
    Record.fetch_revision stAB recAB (some 2) none =
      Except.ok { recAB with current_revision := some 2, content := [("value", "1")] } ∧
    Record.fetch_revision stAB recAB (some 3) none =
      Except.error AarsError.revisionNotFound ∧
    Record.fetch_revision stAB recAB none (some "zzz") =
      Except.error AarsError.revisionNotFound :=
  ⟨rfl, rfl, rfl, rfl⟩

/-- C3 counterexample: the claim says indices registered for a
different record type never receive the record.  But `__indices` is one
name-mangled dict owned by `Record` and shared by every subclass, so
after registering `Index(A, "value")` and `Index(B, "value")`, creating
`A{value:"x"}` (hash `h0`) also lands in the index registered for type
`B`: its hashmap now maps `"x"` to the `A` record's hash. -/
theorem upsert_adds_record_to_foreign_type_index :
    Except.map (fun p => (lookupAssoc p.fst.indices "B.value", p.snd.item_hash))
      (Record.create stTwoIndices "A" [("value", "x")]) =
      Except.ok (some { datatypeName := "B", index_on := "value", hashmap := [("x", "h0")] },
                 some "h0") :=
  rfl

/-- C5 counterexample: the registry key is `repr(index)`, that is
`"A.value"`, while `query` looks the supplied name up verbatim — so the
claimed call `A.query(["x","y"], index="value")` fails with
`UnknownIndex` instead of returning the two records, and
`A.query(["z"], index="value")` would fail with `UnknownIndex`, not
`IndexKeyNotFound`. -/
theorem query_with_bare_field_name_fails_unknown_index :
    query stQ "A" ["x", "y"] "value" = Except.error AarsError.unknownIndex ∧
    query stQ "A" ["z"] "value" = Except.error AarsError.unknownIndex :=
  ⟨rfl, rfl⟩

/-- Helper: the only error `from_post` can produce is the `ValueError`
for a post hash missing from the resolved chain; in particular it never
produces `UnresolvableType`. -/
theorem from_post_error_is_chain_miss (st : AarsState) (tn : String) (p : Post)
    (e : AarsError) (h : from_post st tn p = Except.error e) :
    e = AarsError.postHashNotInChain := by
  simp only [from_post] at h
  split at h
  · exact (Except.error.inj h).symm
  · simp at h

/-- Helper: the reconstruction fan-out propagates only errors produced
by `from_post`. -/
theorem fromPostAll_error_is_chain_miss (st : AarsState) (tn : String) :
    ∀ (ps : List Post) (e : AarsError),
      fromPostAll st tn ps = Except.error e → e = AarsError.postHashNotInChain := by
  intro ps
  induction ps with
  | nil => intro e h; cases h
  | cons p ps ih =>
    intro e h
    unfold fromPostAll at h
    cases hfp : from_post st tn p with
    | error e2 =>
      rw [hfp] at h
      exact (Except.error.inj h) ▸ from_post_error_is_chain_miss st tn p e2 hfp
    | ok r =>
      rw [hfp] at h
      cases hrest : fromPostAll st tn ps with
      | error e2 =>
        rw [hrest] at h
        exact (Except.error.inj h) ▸ ih e2 hrest
      | ok rs => rw [hrest] at h; cases h

/-- C4: the code contradicts the claim.  `fetch_records` performs no
resolution of a post's declared type — it reconstructs every returned
post as the requested datatype — and never fails with
`UnresolvableType`, for any state, type name and filter arguments.  The
error class itself (`PostTypeIsNoClassError`) is declared and does
carry the raw post's field names, but no code path of the core raises
it. -/
theorem fetch_records_never_fails_unresolvable_type :
    (∀ (st : AarsState) (tn : String) (ihs : Option (List String))
       (ch ow : Option String),
       isUnresolvableType (fetch_records st tn ihs ch ow) = false) ∧
    (∀ p : Post,
       postTypeIsNoClassError p =
         AarsError.unresolvableType (p.postContent.map Prod.fst)) := by
  constructor
  · intro st tn ihs ch ow
    cases hres : fetch_records st tn ihs ch ow with
    | error e =>
      have he : e = AarsError.postHashNotInChain := by
        apply fromPostAll_error_is_chain_miss st tn _ e
        rw [← hres]
        rfl
      rw [he]
      rfl
    | ok rs => rfl
  · intro p
    rfl

/-- Helper: a succeeding index fan-out gives every registered index its
updated version, under its registry key. -/
theorem addToAll_mem (r : Record) :
    ∀ (l l2 : List (String × Index)),
      addToAll l r = Except.ok l2 →
      ∀ (k : String) (idx : Index), (k, idx) ∈ l →
        ∃ idx2, idx.add r = Except.ok idx2 ∧ (k, idx2) ∈ l2 := by
  intro l
  induction l with
  | nil => intro l2 h k idx hmem; cases hmem
  | cons kv rest ih =>
    intro l2 h k idx hmem
    obtain ⟨k1, idx1⟩ := kv
    unfold addToAll at h
    cases hadd : idx1.add r with
    | error e => rw [hadd] at h; cases h
    | ok idx1b =>
      rw [hadd] at h
      cases hrest : addToAll rest r with
      | error e => rw [hrest] at h; cases h
      | ok rest2 =>
        rw [hrest] at h
        have hl2 := Except.ok.inj h
        subst hl2
        cases hmem with
        | head =>
          exact ⟨idx1b, hadd, List.Mem.head _⟩
        | tail _ hmem2 =>
          obtain ⟨idx2, h1, h2⟩ := ih rest2 hrest k idx hmem2
          exact ⟨idx2, h1, List.Mem.tail _ h2⟩

/-- C3 (amended): `__indices` is a single registry shared by every
record type, so on a record's first persist (`current_revision == 0`
after the post) EVERY registered index — whatever record type it was
declared for — receives `.add(record)`, and on upserts of later
revisions no index is touched.  The original claim's restriction to the
record's own type fails; see the counterexample. -/
theorem upsert_adds_to_every_registered_index_on_first_persist
    (st : AarsState) (r : Record) (st2 : AarsState) (r2 : Record)
    (h : Record.upsert st r = Except.ok (st2, r2)) :
    (r2.current_revision = some 0 →
       ∀ (k : String) (idx : Index), (k, idx) ∈ st.indices →
         ∃ idx2, idx.add r2 = Except.ok idx2 ∧ (k, idx2) ∈ st2.indices) ∧
    (r2.current_revision ≠ some 0 → st2.indices = st.indices) := by
  have hidx : (post_or_amend_object st r none none).fst.indices = st.indices := rfl
  simp only [Record.upsert] at h
  split at h
  case isTrue hcur =>
    cases hadd : addToAll (post_or_amend_object st r none none).fst.indices
        (post_or_amend_object st r none none).snd with
    | error e => rw [hadd] at h; cases h
    | ok idxs =>
      rw [hadd] at h
      have hpair := Except.ok.inj h
      have hst2 : st2 = { (post_or_amend_object st r none none).fst with indices := idxs } :=
        (congrArg Prod.fst hpair).symm
      have hr2 : r2 = (post_or_amend_object st r none none).snd :=
        (congrArg Prod.snd hpair).symm
      constructor
      · intro _ k idx hmem
        have hmem2 : (k, idx) ∈ (post_or_amend_object st r none none).fst.indices := by
          rw [hidx]; exact hmem
        obtain ⟨idx2, h1, h2⟩ := addToAll_mem _ _ _ hadd k idx hmem2
        refine ⟨idx2, ?_, ?_⟩
        · rw [hr2]; exact h1
        · rw [hst2]; exact h2
      · intro hne
        rw [hr2] at hne
        exact absurd hcur hne
  case isFalse hcur =>
    have hpair := Except.ok.inj h
    have hst2 : st2 = (post_or_amend_object st r none none).fst :=
      (congrArg Prod.fst hpair).symm
    have hr2 : r2 = (post_or_amend_object st r none none).snd :=
      (congrArg Prod.snd hpair).symm
    constructor
    · intro hc
      rw [hr2] at hc
      exact absurd hc hcur
    · intro _
      rw [hst2]
      exact hidx

/-- C3 witness: the two-index registry, a fresh `A` record; its first
persist lands in both registered indices. -/
theorem upsert_index_side_effect_witness :
    (Record.upsert stTwoIndices { typeName := "A", content := [("value", "x")] } =
       Except.ok (wIdx.fst, wIdx.snd)) ∧
    ((wIdx.snd.current_revision = some 0 →
       ∀ (k : String) (idx : Index), (k, idx) ∈ stTwoIndices.indices →
         ∃ idx2, idx.add wIdx.snd = Except.ok idx2 ∧ (k, idx2) ∈ wIdx.fst.indices) ∧
     (wIdx.snd.current_revision ≠ some 0 → wIdx.fst.indices = stTwoIndices.indices)) :=
  ⟨rfl, upsert_adds_to_every_registered_index_on_first_persist stTwoIndices
    { typeName := "A", content := [("value", "x")] } wIdx.fst wIdx.snd rfl⟩

/-- Helper: in the success case `upsert` returns the record exactly as
`post_or_amend_object` left it (the index fan-out mutates indices, not
the record). -/
theorem upsert_ok_record (st : AarsState) (r : Record) (st2 : AarsState) (r2 : Record)
    (h : Record.upsert st r = Except.ok (st2, r2)) :
    r2 = (post_or_amend_object st r none none).snd := by
  simp only [Record.upsert] at h
  split at h
  · cases hadd : addToAll (post_or_amend_object st r none none).fst.indices
        (post_or_amend_object st r none none).snd with
    | error e => rw [hadd] at h; cases h
    | ok idxs =>
      rw [hadd] at h
      exact (congrArg Prod.snd (Except.ok.inj h)).symm
  · exact (congrArg Prod.snd (Except.ok.inj h)).symm

/-- Helper: `post_or_amend_object` appends the fresh hash to the chain,
points `current_revision` at the tail, and assigns `item_hash` only
when it was previously unset. -/
theorem post_or_amend_object_spec (st : AarsState) (r : Record) (a c : Option String) :
    (post_or_amend_object st r a c).snd.revision_hashes =
      r.revision_hashes ++ [freshHash st.counter] ∧
    (post_or_amend_object st r a c).snd.current_revision =
      some ((r.revision_hashes.length : Int)) ∧
    (post_or_amend_object st r a c).snd.item_hash =
      (match r.item_hash with
       | none => some (freshHash st.counter)
       | some ih0 => some ih0) := by
  cases hi : r.item_hash with
  | none =>
    refine ⟨?_, ?_, ?_⟩ <;> simp [post_or_amend_object, client_create_post, hi]
  | some ih0 =>
    refine ⟨?_, ?_, ?_⟩ <;> simp [post_or_amend_object, client_create_post, hi]

/-- Helper: `upsertMany` grows the chain by one per call and leaves
`current_revision` at the tail of the grown chain (or untouched when no
call is made). -/
theorem upsertMany_spec :
    ∀ (cs : List Content) (st : AarsState) (r : Record) (st2 : AarsState) (r2 : Record),
      upsertMany st r cs = Except.ok (st2, r2) →
      r2.revision_hashes.length = r.revision_hashes.length + cs.length ∧
      (cs = [] ∧ r2 = r ∨
       r2.current_revision = some (((r.revision_hashes.length + cs.length : Nat) : Int) - 1)) := by
  intro cs
  induction cs with
  | nil =>
    intro st r st2 r2 h
    simp only [upsertMany] at h
    have hr : r2 = r := (congrArg Prod.snd (Except.ok.inj h)).symm
    exact ⟨by rw [hr]; simp, Or.inl ⟨rfl, hr⟩⟩
  | cons c cs ih =>
    intro st r st2 r2 h
    simp only [upsertMany] at h
    cases hu : Record.upsert st { r with content := c } with
    | error e => rw [hu] at h; cases h
    | ok p =>
      rw [hu] at h
      obtain ⟨hlen, hcur⟩ := ih p.fst p.snd st2 r2 h
      have hsnd : p.snd = (post_or_amend_object st { r with content := c } none none).snd := by
        obtain ⟨pf, ps⟩ := p
        exact upsert_ok_record st { r with content := c } pf ps hu
      obtain ⟨hrh, hcr, _⟩ := post_or_amend_object_spec st { r with content := c } none none
      have hplen : p.snd.revision_hashes.length = r.revision_hashes.length + 1 := by
        rw [hsnd, hrh]; simp
      have hpcur : p.snd.current_revision = some ((r.revision_hashes.length : Int)) := by
        rw [hsnd]; exact hcr
      constructor
      · rw [hlen, hplen]
        simp only [List.length_cons]
        omega
      · right
        cases hcur with
        | inl hc2 =>
          obtain ⟨hcs, hr2⟩ := hc2
          subst hcs
          rw [hr2, hpcur]
          simp
        | inr hc2 =>
          rw [hc2, hplen]
          simp only [List.length_cons]
          congr 1
          push_cast
          ring

/-- C6: after `create`, the record's `item_hash` is the fresh hash the
collaborator returned (in particular non-null), its chain is the
one-element list holding that hash, and `current_revision` is `0`;
after `N` further `upsert` calls (with the payload arbitrarily mutated
before each), the chain has `N+1` entries and `current_revision` is
`N`. -/
theorem create_and_upserts_build_revision_chain
    (st st1 st2 : AarsState) (tn : String) (c : Content) (cs : List Content)
    (r1 r2 : Record)
    (hc : Record.create st tn c = Except.ok (st1, r1))
    (hu : upsertMany st1 r1 cs = Except.ok (st2, r2)) :
    (r1.item_hash = some (freshHash st.counter) ∧
     r1.revision_hashes = [freshHash st.counter] ∧
     r1.current_revision = some 0) ∧
    (r2.revision_hashes.length = cs.length + 1 ∧
     r2.current_revision = some ((cs.length : Nat) : Int)) := by
  have hr1 : r1 = (post_or_amend_object st { typeName := tn, content := c } none none).snd :=
    upsert_ok_record st { typeName := tn, content := c } st1 r1 hc
  obtain ⟨hrh, hcr, hih⟩ :=
    post_or_amend_object_spec st { typeName := tn, content := c } none none
  have h1a : r1.item_hash = some (freshHash st.counter) := by rw [hr1]; exact hih
  have h1b : r1.revision_hashes = [freshHash st.counter] := by rw [hr1]; exact hrh
  have h1c : r1.current_revision = some 0 := by rw [hr1]; exact hcr
  obtain ⟨hlen, hcur⟩ := upsertMany_spec cs st1 r1 st2 r2 hu
  refine ⟨⟨h1a, h1b, h1c⟩, ?_, ?_⟩
  · rw [hlen, h1b]
    simp [Nat.add_comm]
  · cases hcur with
    | inl hc2 =>
      obtain ⟨hcs, hr2⟩ := hc2
      subst hcs
      rw [hr2]
      exact h1c
    | inr hc2 =>
      rw [hc2]
      simp only [h1b, List.length_singleton]
      congr 1
      push_cast
      ring

/-- C6 witness: create `W{v:"0"}` in the empty world, then upsert twice
with mutated payloads; the chain has three entries and
`current_revision` is `2`. -/
theorem create_and_upserts_chain_witness :
    (Record.create ({} : AarsState) "W" [("v", "0")] =
       Except.ok (wChainA.fst, wChainA.snd)) ∧
    (upsertMany wChainA.fst wChainA.snd [[("v", "1")], [("v", "2")]] =
       Except.ok (wChainB.fst, wChainB.snd)) ∧
    ((wChainA.snd.item_hash = some (freshHash ({} : AarsState).counter) ∧
      wChainA.snd.revision_hashes = [freshHash ({} : AarsState).counter] ∧
      wChainA.snd.current_revision = some 0) ∧
     (wChainB.snd.revision_hashes.length =
        List.length [[("v", "1")], [("v", "2")]] + 1 ∧
      wChainB.snd.current_revision =
        some ((List.length ([[("v", "1")], [("v", "2")]] : List Content) : Nat) : Int))) :=
  ⟨rfl, rfl, create_and_upserts_build_revision_chain {} wChainA.fst wChainB.fst "W"
    [("v", "0")] [[("v", "1")], [("v", "2")]] wChainA.snd wChainB.snd rfl rfl⟩

/-- C8: a first `forget` sends the collaborator one instruction naming
the canonical hash followed by every revision hash and flips the flag;
a second `forget` on the resulting record fails with
`AlreadyForgotten`, and — the error being raised before any effect —
issues no further instruction and leaves the flag `true`. -/
theorem forget_once_then_already_forgotten (st : AarsState) (r : Record)
    (h : r.forgotten = false) :
    Record.forget st r = Except.ok
      ({ st with forgetCalls := st.forgetCalls ++ [r.item_hash :: r.revision_hashes.map some] },
       { r with forgotten := true }) ∧
    Record.forget
      { st with forgetCalls := st.forgetCalls ++ [r.item_hash :: r.revision_hashes.map some] }
      { r with forgotten := true } = Except.error AarsError.alreadyForgotten := by
  constructor
  · simp [Record.forget, forget_object, h]
  · simp [Record.forget]

/-- C8 witness: the scenario record, never forgotten, against the empty
world state. -/
theorem forget_idempotence_witness :
    Record.forget ({} : AarsState) recAB = Except.ok
      ({ ({} : AarsState) with
         forgetCalls := [recAB.item_hash :: recAB.revision_hashes.map some] },
       { recAB with forgotten := true }) ∧
    Record.forget
      { ({} : AarsState) with
        forgetCalls := [recAB.item_hash :: recAB.revision_hashes.map some] }
      { recAB with forgotten := true } = Except.error AarsError.alreadyForgotten :=
  forget_once_then_already_forgotten {} recAB rfl

/-- Helper: refreshing the chain view never touches `item_hash`. -/
theorem update_revision_hashes_item_hash (st : AarsState) (r : Record) :
    (update_revision_hashes st r).item_hash = r.item_hash := by
  cases h : r.item_hash <;> simp [update_revision_hashes, h]

/-- C7: a record reconstructed by `from_post` takes the post's own hash
as `item_hash` when the post has no `ref`, takes `ref`'s value when it
has one, and in both cases points `current_revision` at the position of
the post's own hash within the resolved chain. -/
theorem from_post_reconstruction (st : AarsState) (tn : String) (p : Post) (r : Record)
    (h : from_post st tn p = Except.ok r) :
    (p.ref = none → r.item_hash = some p.item_hash) ∧
    (∀ x, p.ref = some x → r.item_hash = some x) ∧
    ∃ i, indexOfStr r.revision_hashes p.item_hash = some i ∧
      r.current_revision = some (Int.ofNat i) := by
  cases href : p.ref with
  | none =>
    simp only [from_post, href] at h
    split at h
    next heq => exact absurd h (by simp)
    next i heq =>
      have hr := (Except.ok.inj h).symm
      subst hr
      refine ⟨fun _ => rfl, fun x hx => ?_, ⟨i, heq, rfl⟩⟩
      cases hx
  | some x0 =>
    simp only [from_post, href] at h
    split at h
    next heq => exact absurd h (by simp)
    next i heq =>
      have hr := (Except.ok.inj h).symm
      subst hr
      refine ⟨fun hn => ?_, fun x hx => ?_, ⟨i, heq, rfl⟩⟩
      · cases hn
      · have hx0 : x0 = x := Option.some.inj hx
        subst hx0
        rfl

/-- C7 witness: reconstructing from the amendment post `h1`
(`ref = h0`) of the create/upsert scenario yields the record with
canonical hash `h0` and `current_revision = 1`, the position of `h1` in
the chain `[h0, h1]`. -/
theorem from_post_reconstruction_witness :
    (from_post stAB "A" postH1 = Except.ok recAB) ∧
    ((postH1.ref = none → recAB.item_hash = some postH1.item_hash) ∧
     (∀ x, postH1.ref = some x → recAB.item_hash = some x) ∧
     ∃ i, indexOfStr recAB.revision_hashes postH1.item_hash = some i ∧
       recAB.current_revision = some (Int.ofNat i)) :=
  ⟨rfl, from_post_reconstruction stAB "A" postH1 recAB rfl⟩

/-- Helper: key resolution distributes over appending one key. -/
theorem resolveKeys_append (m : List (String × String)) :
    ∀ (ks : List String) (k : String),
      resolveKeys m (ks ++ [k]) =
        (match resolveKeys m ks, lookupAssoc m k with
         | Except.error e, _ => Except.error e
         | Except.ok _, none => Except.error AarsError.indexKeyNotFound
         | Except.ok hs, some h => Except.ok (hs ++ [h])) := by
  intro ks
  induction ks with
  | nil =>
    intro k
    cases hl : lookupAssoc m k <;> simp [resolveKeys, hl]
  | cons k0 ks ih =>
    intro k
    cases hl0 : lookupAssoc m k0 with
    | none => simp [resolveKeys, hl0]
    | some h0 =>
      cases hr : resolveKeys m ks with
      | error e => simp [resolveKeys, hl0, hr, ih]
      | ok hs =>
        cases hl : lookupAssoc m k with
        | none => simp [resolveKeys, hl0, hr, hl, ih]
        | some h => simp [resolveKeys, hl0, hr, hl, ih]

/-- Helper: every key of a successfully resolved list has its mapped
hash in the result. -/
theorem resolveKeys_mem (m : List (String × String)) :
    ∀ (ks hs : List String), resolveKeys m ks = Except.ok hs →
      ∀ k, k ∈ ks → ∃ h, lookupAssoc m k = some h ∧ h ∈ hs := by
  intro ks
  induction ks with
  | nil => intro hs _ k hk; cases hk
  | cons k0 ks ih =>
    intro hs h k hk
    simp only [resolveKeys] at h
    cases hl0 : lookupAssoc m k0 with
    | none => rw [hl0] at h; cases h
    | some h0 =>
      rw [hl0] at h
      cases hr : resolveKeys m ks with
      | error e => rw [hr] at h; cases h
      | ok hs0 =>
        rw [hr] at h
        have hhs : hs = h0 :: hs0 := (Except.ok.inj h).symm
        subst hhs
        cases hk with
        | head => exact ⟨h0, hl0, List.Mem.head _⟩
        | tail _ hk2 =>
          obtain ⟨hh, h1, h2⟩ := ih hs0 hr k hk2
          exact ⟨hh, h1, List.Mem.tail _ h2⟩

/-- Helper: appending an already-seen element does not change the
deduplicated list. -/
theorem dedupAux_append_mem :
    ∀ (l seen : List String) (x : String), x ∈ l ∨ x ∈ seen →
      dedupAux seen (l ++ [x]) = dedupAux seen l := by
  intro l
  induction l with
  | nil =>
    intro seen x hx
    have hxs : x ∈ seen := by
      cases hx with
      | inl h => cases h
      | inr h => exact h
    simp [dedupAux, hxs]
  | cons y ys ih =>
    intro seen x hx
    simp only [List.cons_append, dedupAux, List.append_eq]
    by_cases hy : y ∈ seen
    · simp only [if_pos hy]
      apply ih
      cases hx with
      | inl h =>
        cases h with
        | head => exact Or.inr hy
        | tail _ h2 => exact Or.inl h2
      | inr h => exact Or.inr h
    · simp only [if_neg hy]
      rw [ih (y :: seen) x ?side]
      case side =>
        cases hx with
        | inl h =>
          cases h with
          | head => exact Or.inr (List.Mem.head _)
          | tail _ h2 => exact Or.inl h2
        | inr h => exact Or.inr (List.Mem.tail _ h)

/-- Helper: `list(set(...))` ignores a repeated element. -/
theorem dedup_append_mem (l : List String) (x : String) (hx : x ∈ l) :
    dedup (l ++ [x]) = dedup l :=
  dedupAux_append_mem l [] x (Or.inl hx)

/-- C10: `Index.fetch` collapses the mapped canonical hashes into a set
before fetching: appending one more key whose mapped hash is already
produced by a key of the list changes nothing about the result — the
corresponding record appears once, and the result's multiplicity does
not follow the key list (its order is the network response's, via
`fetch_records`). -/
theorem index_fetch_collapses_duplicate_hashes
    (st : AarsState) (idx : Index) (keys : List String) (k k2 h0 : String)
    (hmem : k2 ∈ keys)
    (hk : lookupAssoc idx.hashmap k = some h0)
    (hk2 : lookupAssoc idx.hashmap k2 = some h0) :
    Index.fetch st idx (some (keys ++ [k])) = Index.fetch st idx (some keys) := by
  simp only [Index.fetch]
  rw [resolveKeys_append]
  cases hr : resolveKeys idx.hashmap keys with
  | error e => simp [hk]
  | ok hs =>
    obtain ⟨h1, hl1, hmem1⟩ := resolveKeys_mem idx.hashmap keys hs hr k2 hmem
    have hh1 : h1 = h0 := by
      rw [hk2] at hl1
      exact (Option.some.inj hl1).symm
    subst hh1
    simp only [hk]
    rw [dedup_append_mem hs h1 hmem1]

/-- C10 witness: an index mapping both `"x"` and `"y"` to hash `"h0"`;
fetching `["x", "y"]` equals fetching `["x"]`. -/
theorem index_fetch_dedup_witness :
    Index.fetch ({} : AarsState) idxDup (some (["x"] ++ ["y"])) =
      Index.fetch ({} : AarsState) idxDup (some ["x"]) :=
  index_fetch_collapses_duplicate_hashes {} idxDup ["x"] "y" "x" "h0"
    (List.Mem.head _) rfl rfl

/-- Helper: posting reads only content, `item_hash` and the chain, so
the `forgotten` flag is merely carried through. -/
theorem post_or_amend_object_forgotten (st : AarsState) (r : Record) (b : Bool)
    (a c : Option String) :
    post_or_amend_object st { r with forgotten := b } a c =
      ((post_or_amend_object st r a c).fst,
       { (post_or_amend_object st r a c).snd with forgotten := b }) := by
  obtain ⟨tn, fo, ih, cr, rh, co⟩ := r
  cases ih <;> rfl

/-- Helper: the index fan-out reads only content and `item_hash`. -/
theorem addToAll_forgotten (l : List (String × Index)) (r : Record) (b : Bool) :
    addToAll l { r with forgotten := b } = addToAll l r := by
  induction l with
  | nil => rfl
  | cons kv rest ih =>
    obtain ⟨k, idx⟩ := kv
    simp only [addToAll]
    rw [ih]
    rfl

/-- Helper: `upsert` is oblivious to the `forgotten` flag. -/
theorem upsert_forgotten (st : AarsState) (r : Record) (b : Bool) :
    Record.upsert st { r with forgotten := b } =
      Except.map (fun p => (p.fst, { p.snd with forgotten := b }))
        (Record.upsert st r) := by
  simp only [Record.upsert, post_or_amend_object_forgotten]
  rw [addToAll_forgotten]
  split
  · cases hadd : addToAll (post_or_amend_object st r none none).fst.indices
        (post_or_amend_object st r none none).snd <;> simp [Except.map]
  · simp [Except.map]

/-- Helper: the content re-fetch is oblivious to the `forgotten`
flag. -/
theorem materialize_forgotten (st : AarsState) (r : Record) (b : Bool) :
    materialize st { r with forgotten := b } =
      Except.map (fun x => { x with forgotten := b }) (materialize st r) := by
  simp only [materialize]
  cases hfr : fetch_records st r.typeName
      (some (match r.item_hash with
             | none => []
             | some h => [h])) none none with
  | error e => simp [Except.map]
  | ok recs => cases recs <;> simp [Except.map]

/-- C9: neither `upsert` nor `fetch_revision` inspects `forgotten`: on
a record with the flag set (or any value `b` of it) each behaves
exactly as on the same record with the flag clear, the flag being
merely carried through to the returned record — posting the new
revision, appending the returned hash and updating `current_revision`
identically.  Only `forget` reads the flag. -/
theorem upsert_and_fetch_revision_ignore_forgotten_flag
    (st : AarsState) (r : Record) (b : Bool) (rn : Option Int) (rh : Option String) :
    Record.upsert st { r with forgotten := b } =
      Except.map (fun p => (p.fst, { p.snd with forgotten := b }))
        (Record.upsert st r) ∧
    Record.fetch_revision st { r with forgotten := b } rn rh =
      Except.map (fun x => { x with forgotten := b })
        (Record.fetch_revision st r rn rh) := by
  refine ⟨upsert_forgotten st r b, ?_⟩
  cases rn with
  | some k0 =>
    simp only [Record.fetch_revision]
    split
    next h0 =>
      split
      · simp [Except.map]
      · split
        · simp [Except.map]
        · exact materialize_forgotten st
            { r with current_revision := some ((r.revision_hashes.length : Int) + k0) } b
    next h0 =>
      split
      · simp [Except.map]
      · split
        · simp [Except.map]
        · exact materialize_forgotten st { r with current_revision := some k0 } b
  | none =>
    cases rh with
    | some h0 =>
      simp only [Record.fetch_revision]
      cases hidx : indexOfStr r.revision_hashes h0 with
      | none => simp [Except.map]
      | some i =>
        exact materialize_forgotten st
          { r with current_revision := some (Int.ofNat i) } b
    | none => simp [Record.fetch_revision, Except.map]

/-- C5 as amended: with the qualified index name `"A.value"` the
end-to-end scenario behaves as the claim describes: the query for
`["x","y"]` returns both created records (in the network response's
order, newest first) and the query for `["z"]` fails with
`IndexKeyNotFound`. -/
theorem query_with_qualified_index_name_round_trip :
    query stQ "A" ["x", "y"] "A.value" = Except.ok [recQY, recQX] ∧
    query stQ "A" ["z"] "A.value" = Except.error AarsError.indexKeyNotFound :=
  ⟨rfl, rfl⟩

end Aars
